import Mathlib

/-!
Verification of the bulk provisioning script `ald.py` (chunked, concurrent,
retry-once batch command executor).

Embedding conventions:
* Python strings are Lean `String`s; `str.strip()` and `str.split(':', 2)[1]`
  are modelled on the underlying character lists (`pyStrip`, `splitCh`).
  `Char.isWhitespace` covers space, tab, CR, LF (Python additionally strips
  the rare `\x0b`/`\x0c`, which never occur in the data handled here).
* A Python generator is modelled as the list of its remaining elements;
  `next()` pops the head (raising `StopIteration` when exhausted), and the
  mutation of a shared generator is explicit state passing of type `Args`.
* Spawned external processes are modelled by a `World` oracle that maps the
  full argv of an invocation to its captured stderr text, its stdout lines
  and its exit status.  `runCmd` never reads the exit status, mirroring the
  source.
* A task body either returns `Option String` (the Python function's return
  value, `none` for a fall-through `return None`) or raises, modelled by
  `Except PyErr`.  `run_in_threads` catches every exception of a task.
* The thread pool of `run_in_threads` only schedules tasks; the outcome of
  each task is independent of scheduling, and every property stated below is
  invariant under permutation of the completion order, so completion order is
  modelled as submission order.  The `threads` argument is retained in the
  signatures to record the worker count each call site requests.
-/

/-! ### Python string primitives -/

/-- Python `str.strip()` on the character list: drop whitespace from both ends. -/
def pyStrip (cs : List Char) : List Char :=
  ((cs.dropWhile Char.isWhitespace).reverse.dropWhile Char.isWhitespace).reverse

/-- Python `str.strip()` on strings. -/
def pyStripStr (s : String) : String := ⟨pyStrip s.data⟩

/-- Full split of a character list on a separator (Python `str.split(sep)`).
The element at index 1 agrees with `str.split(sep, maxsplit=2)[1]`, which is
all the source ever reads. -/
def splitCh (sep : Char) : List Char → List (List Char)
  | [] => [[]]
  | c :: rest =>
    let r := splitCh sep rest
    if c = sep then [] :: r
    else (c :: r.headD []) :: r.tail

/-- `result.split(':', maxsplit=2)[1].strip()` from `run_in_threads` (line 166).
Within this program every result string that reaches this expression contains
a colon, so the Python `IndexError` branch of the indexing is unreachable and
the default `[]` is never used. -/
def extractName (r : String) : String := ⟨pyStrip ((splitCh ':' r.data).getD 1 [])⟩

/-- Python `str.startswith(pre)`. -/
def pyStartswith (s pre : String) : Bool := pre.data.isPrefixOf s.data

/-! ### The external world and `runCmd` -/

/-- The placeholder password constant `PWD_GEN` (line 8). -/
def PWD_GEN : String := "123456789123456789"

/-- Outcomes of the external processes spawned during a run, keyed by the full
argv of the invocation: captured stderr text, captured stdout lines (raw, with
trailing newlines as read by `readlines()`), and the exit status. -/
structure World where
  stderrOf : List String → String
  stdoutOf : List String → List String
  exitOf : List String → Int

/-- Exceptions a task body can raise. -/
inductive PyErr where
  | stopIteration : PyErr
  | indexError : PyErr
  | typeError : PyErr
deriving DecidableEq

/-- `runCmd` (lines 43-57): classify from stderr only.  A non-empty stripped
stderr returns `'failed: <name>'` (no error detail).  Otherwise, with at least
two stdout lines the result is `'<name>: <second line, stripped>'` (`out[1]`);
with exactly one stdout line the indexing `out[1]` raises `IndexError`; with no
output the function falls through and returns `None`.  The exit status of the
process is never consulted. -/
def runCmd (w : World) (cmd : List String) (name : String) :
    Except PyErr (Option String) :=
  let err := pyStripStr (w.stderrOf cmd)
  if err ≠ "" then
    Except.ok (some ("failed: " ++ name))
  else
    let out := w.stdoutOf cmd
    if out.length > 0 then
      match out.get? 1 with
      | some l => Except.ok (some (name ++ ": " ++ pyStripStr l))
      | none => Except.error PyErr.indexError
    else
      Except.ok none

/-! ### Task argument lists and the five command variants -/

/-- One element of the `cmd_args` list built in `main`: either a generator
(modelled by its remaining elements) or a plain string (domain or password). -/
inductive PyArg where
  | gen : List String → PyArg
  | str : String → PyArg
deriving DecidableEq

/-- The `cmd_args` list threaded through every task of a run. -/
abbrev Args := List PyArg

/-- A command variant: given the world and the shared argument list, produce
the task's outcome and the argument list after the generator consumption
performed by this task. -/
abbrev Cmd := World → Args → Except PyErr (Option String) × Args

/-- argv of `ipa user-add` built by `make_users` (lines 62-67). -/
def userAddCmd (name : String) : List String :=
  ["ipa", "user-add", name, "--last", name, "--first", name]

/-- argv of `ipa group-add` built by `make_groups` (lines 87-89). -/
def groupAddCmd (name : String) : List String :=
  ["ipa", "group-add", name]

/-- argv of `ipa host-add` built by `make_hosts` (lines 75-77). -/
def hostAddCmd (name dnszone : String) : List String :=
  ["ipa", "host-add", name ++ "." ++ dnszone, "--force"]

/-- argv of `ipa dnsrecord-add` built by `make_hosts` (lines 79-81). -/
def dnsRecordCmd (dnszone name ip : String) : List String :=
  ["ipa", "dnsrecord-add", dnszone, name, "--a-rec", ip]

/-- argv of `ipa passwd` built by `activate_users` (lines 97-99). -/
def passwdCmd (name : String) : List String :=
  ["ipa", "passwd", name, PWD_GEN]

/-- argv of `kinit` built by `activate_users`/`auth_users` (lines 112-114,
137-139). -/
def kinitCmd (name : String) : List String :=
  ["kinit", "-c", "/tmp/" ++ name ++ ".cc.tmp", name]

/-- `make_users` (lines 60-68): pop one name from the generator at `args[0]`
and run `ipa user-add`.  The driver always calls it with a single-generator
argument list; any other shape is a runtime type error of `next(*args[0])`. -/
def make_users : Cmd := fun w args =>
  match args with
  | [PyArg.gen []] => (Except.error PyErr.stopIteration, args)
  | [PyArg.gen (x :: xs)] => (runCmd w (userAddCmd x) x, [PyArg.gen xs])
  | _ => (Except.error PyErr.typeError, args)

/-- `make_groups` (lines 85-90): same shape as `make_users` with
`ipa group-add`. -/
def make_groups : Cmd := fun w args =>
  match args with
  | [PyArg.gen []] => (Except.error PyErr.stopIteration, args)
  | [PyArg.gen (x :: xs)] => (runCmd w (groupAddCmd x) x, [PyArg.gen xs])
  | _ => (Except.error PyErr.typeError, args)

/-- `make_hosts` (lines 71-82): pop a name from `args[0]`, read the DNS zone
from `args[1]`, pop an IP from `args[2]`, run `ipa host-add` discarding its
result (an exception inside that first `runCmd` still propagates), then run
`ipa dnsrecord-add` and return its result.  With a two-element argument list
(the retry pass shape) the access `args[2]` raises `IndexError` after the name
has already been consumed. -/
def make_hosts : Cmd := fun w args =>
  match args with
  | [PyArg.gen []] => (Except.error PyErr.stopIteration, args)
  | [PyArg.gen (x :: xs)] => (Except.error PyErr.indexError, [PyArg.gen xs])
  | [PyArg.gen [], PyArg.str d] => (Except.error PyErr.stopIteration, [PyArg.gen [], PyArg.str d])
  | [PyArg.gen (x :: xs), PyArg.str d] => (Except.error PyErr.indexError, [PyArg.gen xs, PyArg.str d])
  | [PyArg.gen [], PyArg.str d, PyArg.gen m] =>
    (Except.error PyErr.stopIteration, [PyArg.gen [], PyArg.str d, PyArg.gen m])
  | [PyArg.gen (x :: xs), PyArg.str d, PyArg.gen []] =>
    (Except.error PyErr.stopIteration, [PyArg.gen xs, PyArg.str d, PyArg.gen []])
  | [PyArg.gen (x :: xs), PyArg.str d, PyArg.gen (ip :: ips)] =>
    let st : Args := [PyArg.gen xs, PyArg.str d, PyArg.gen ips]
    (match runCmd w (hostAddCmd x d) x with
     | Except.error e => Except.error e
     | Except.ok _ => runCmd w (dnsRecordCmd d x ip) x, st)
  | _ => (Except.error PyErr.typeError, args)

/-- `activate_users` (lines 93-131): pop a name, run `ipa passwd` reading only
its stdout (`response[1]` raises `IndexError` when exactly one line was
printed), then run `kinit` feeding the placeholder and the new password on
stdin; classification is again stderr-only, but unlike `runCmd` the failure
string carries the error detail. -/
def activate_users : Cmd := fun w args =>
  match args with
  | [PyArg.gen []] => (Except.error PyErr.stopIteration, args)
  | [PyArg.gen (x :: xs)] => (Except.error PyErr.indexError, [PyArg.gen xs])
  | [PyArg.gen [], PyArg.str p] => (Except.error PyErr.stopIteration, [PyArg.gen [], PyArg.str p])
  | [PyArg.gen (x :: xs), PyArg.str p] =>
    let st : Args := [PyArg.gen xs, PyArg.str p]
    let response := w.stdoutOf (passwdCmd x)
    (if response.length = 1 then Except.error PyErr.indexError
     else
      let err := pyStripStr (w.stderrOf (kinitCmd x))
      if err ≠ "" then Except.ok (some ("failed: " ++ x ++ ": " ++ err))
      else Except.ok (some (x ++ ": kinit: successful")), st)
  | _ => (Except.error PyErr.typeError, args)

/-- `auth_users` (lines 134-153): pop a name, run `kinit` feeding the password
on stdin; stderr-only classification with the error detail in the failure
string. -/
def auth_users : Cmd := fun w args =>
  match args with
  | [PyArg.gen []] => (Except.error PyErr.stopIteration, args)
  | [PyArg.gen (x :: xs)] => (Except.error PyErr.indexError, [PyArg.gen xs])
  | [PyArg.gen [], PyArg.str p] => (Except.error PyErr.stopIteration, [PyArg.gen [], PyArg.str p])
  | [PyArg.gen (x :: xs), PyArg.str p] =>
    let st : Args := [PyArg.gen xs, PyArg.str p]
    let err := pyStripStr (w.stderrOf (kinitCmd x))
    (if err ≠ "" then Except.ok (some ("failed: " ++ x ++ ": " ++ err))
     else Except.ok (some (x ++ ": kinit: successful")), st)
  | _ => (Except.error PyErr.typeError, args)

/-! ### The batch executor `run_in_threads` -/

/-- The result-collection loop of `run_in_threads` (lines 160-168): a `None`
result is skipped, a result string starting with `'failed'` contributes
`result.split(':', 2)[1].strip()` to the failure list, any other result only
gets logged, and a task that raised is logged and contributes nothing. -/
def processOutcomes : List (Except PyErr (Option String)) → List String
  | [] => []
  | Except.ok (some r) :: rest =>
    if pyStartswith r "failed" then extractName r :: processOutcomes rest
    else processOutcomes rest
  | _ :: rest => processOutcomes rest

/-- The submission loop of `run_in_threads` (line 159): one task per index of
`range(start, stop)`, each invoking the command on the shared argument list.
Outcomes are listed in submission order (see the header note on completion
order). -/
def runTasks (w : World) (cmd : Cmd) : Nat → Args → List (Except PyErr (Option String)) × Args
  | 0, args => ([], args)
  | n + 1, args =>
    let p := cmd w args
    let q := runTasks w cmd n p.2
    (p.1 :: q.1, q.2)

/-- `run_in_threads` (lines 156-169): submit `stop - start` tasks to a pool of
`threads` workers, then collect the names of the failed tasks. -/
def run_in_threads (w : World) (threads : Nat) (cmd : Cmd) (args : Args)
    (start stop : Nat) : List String × Args :=
  let p := runTasks w cmd (stop - start) args
  (processOutcomes p.1, p.2)

/-! ### The chunked retry driver -/

/-- The rerun argument list built for a retry pass (lines 233-235): a fresh
generator over the failed names, plus the extra argument when the mode has one.
For `hostmk` this omits the IP generator the first pass had. -/
def mkRerunArgs (failed : List String) (extra : Option String) : Args :=
  match extra with
  | none => [PyArg.gen failed]
  | some e => [PyArg.gen failed, PyArg.str e]

/-- The chunk loop body and accumulation of `main` (lines 219-245): for each
chunk run the batch executor at the configured worker count, and when the
failure list is non-empty rerun it exactly once at worker count 2 over
`[0, len(failed))` with the substituted generator, appending the second-pass
failures to the run-wide `failed_twice` list. -/
def runChunks (w wr : World) (threads : Nat) (cmd : Cmd) (extra : Option String) :
    List (Nat × Nat) → Args → List String → Args × List String
  | [], args, acc => (args, acc)
  | (s, e) :: rest, args, acc =>
    let p := run_in_threads w threads cmd args s e
    let failed := p.1
    let failed_again :=
      if failed = [] then []
      else (run_in_threads wr 2 cmd (mkRerunArgs failed extra) 0 failed.length).1
    runChunks w wr threads cmd extra rest p.2 (acc ++ failed_again)

/-- Python `range(start, stop, step)` for a positive step, by fuel recursion
(the fuel `stop - start` dominates the iteration count).  `main` only reaches
the chunk loop with a positive chunk size; `range` with step 0 raises in
Python and is modelled as the empty list, unused by every theorem below. -/
def pyRangeAux (step : Nat) : Nat → Nat → Nat → List Nat
  | 0, _, _ => []
  | fuel + 1, start, stop =>
    if start < stop then start :: pyRangeAux step fuel (start + step) stop else []

/-- Python `range(start, stop, step)`. -/
def pyRange (start stop step : Nat) : List Nat :=
  if step = 0 then [] else pyRangeAux step (stop - start) start stop

/-- The chunk sub-ranges produced by the driver loop (lines 219-223):
`start_pos` runs over `range(start, stop, chunk)` and
`end_pos = min(start_pos + chunk, stop)`. -/
def chunkList (start stop csize : Nat) : List (Nat × Nat) :=
  (pyRange start stop csize).map fun p => (p, min (p + csize) stop)

/-! ### `main`: generators, mode table, argument assembly, clamp -/

/-- The record-name generator (line 206): `<base_name><i>` for
`i in range(start, stop + 1)` — the stop index is included. -/
def namesGen (base : String) (start stop : Nat) : List String :=
  (List.range' start (stop + 1 - start)).map fun i => base ++ toString i

/-- The IP generator for `hostmk` (line 214): `10.10.<i // 256>.<i % 256>` for
the same inclusive index range. -/
def ipsGen (start stop : Nat) : List String :=
  (List.range' start (stop + 1 - start)).map fun i =>
    "10.10." ++ toString (i / 256) ++ "." ++ toString (i % 256)

/-- The five mode keywords (line 178). -/
def modeNames : List String := ["usermk", "groupmk", "hostmk", "useract", "userauth"]

/-- The modes that require a seventh positional argument (lines 179, 210). -/
def extraModes : List String := ["useract", "userauth", "hostmk"]

/-- The `cmds` dispatch dictionary (lines 198-204). -/
def cmdTable : List (String × Cmd) :=
  [("usermk", make_users), ("hostmk", make_hosts), ("groupmk", make_groups),
   ("useract", activate_users), ("userauth", auth_users)]

/-- Assembly of `cmd_args` (lines 208-215): the names generator, then the
extra argument for the modes that take one, then the IP generator for
`hostmk`. -/
def mkCmdArgs (action base : String) (start stop : Nat) (extra : String) : Args :=
  let a : Args := [PyArg.gen (namesGen base start stop)]
  let a := if extraModes.contains action then a ++ [PyArg.str extra] else a
  if action = "hostmk" then a ++ [PyArg.gen (ipsGen start stop)] else a

/-- `extra_arg` (lines 209-212): `None` unless the mode takes a seventh
argument. -/
def extraOf (action extra : String) : Option String :=
  if extraModes.contains action then some extra else none

/-- The worker-count clamp (lines 195-196): values not strictly between 0 and
10 are replaced by 5. -/
def effectiveThreads (threads : Int) : Int :=
  if 0 < threads ∧ threads < 10 then threads else 5

/-! ### Argument validation (lines 176-182) -/

/-- No two consecutive underscores (part of Python's numeric-literal rule for
`int()`). -/
def noDoubleUnderscore : List Char → Bool
  | c1 :: c2 :: rest => !(c1 == '_' && c2 == '_') && noDoubleUnderscore (c2 :: rest)
  | _ => true

/-- The digit body accepted by Python `int()` after sign removal: non-empty,
decimal digits with optional single underscores strictly between digits. -/
def validDigits (cs : List Char) : Bool :=
  !cs.isEmpty && cs.all (fun c => c.isDigit || c == '_')
    && (cs.headD '_').isDigit && (cs.getLastD '_').isDigit && noDoubleUnderscore cs

/-- Numeric value of a digit body (underscores skipped). -/
def digitsVal (cs : List Char) : Nat :=
  (cs.filter Char.isDigit).foldl (fun a c => 10 * a + (c.toNat - 48)) 0

/-- Python `int(s)` on a decimal string: surrounding whitespace is stripped,
an optional sign is accepted, and a malformed body raises `ValueError`
(`none`).  Non-ASCII digits are not modelled; none are relevant here. -/
def pyInt? (s : String) : Option Int :=
  match pyStrip s.data with
  | '+' :: rest => if validDigits rest then some (digitsVal rest) else none
  | '-' :: rest => if validDigits rest then some (-(digitsVal rest : Int)) else none
  | cs => if validDigits cs then some (digitsVal cs) else none

/-- How `main` starts (lines 176-182): print usage and quit, die with an
uncaught `ValueError` from `int()`, or proceed into the run with the four
parsed integers. -/
inductive MainStart where
  | usage : MainStart
  | crash : MainStart
  | proceed : List Int → MainStart
deriving DecidableEq

/-- The validation gate of `main` (lines 176-182), with Python's left-to-right
short-circuit order: argument count, mode keyword, mode-specific seventh
argument, then `int(x) >= 0` over `args[2:6]` — where `int()` itself raises on
a non-numeric string before the comparison can fail. -/
def checkArgs (args : List String) : MainStart :=
  if args.length < 6 then MainStart.usage
  else if !(modeNames.contains (args.headD "")) then MainStart.usage
  else if extraModes.contains (args.headD "") && args.length < 7 then MainStart.usage
  else
    match ((args.drop 2).take 4).mapM pyInt? with
    | none => MainStart.crash
    | some vs => if vs.all (fun v => 0 ≤ v) then MainStart.proceed vs else MainStart.usage

/-! ### Shape bookkeeping for the driver proofs -/

/-- Contents of the generator at `args[0]`, the record-name source. -/
def gen0Of (args : Args) : List String :=
  match args with
  | PyArg.gen xs :: _ => xs
  | _ => []

/-- The argument-list shapes `main` builds for each mode (for `hostmk` the two
generators are produced over the same index range, hence equal length). -/
def argsShape (action : String) (args : Args) : Bool :=
  match action, args with
  | "usermk", [PyArg.gen _] => true
  | "groupmk", [PyArg.gen _] => true
  | "useract", [PyArg.gen _, PyArg.str _] => true
  | "userauth", [PyArg.gen _, PyArg.str _] => true
  | "hostmk", [PyArg.gen l, PyArg.str _, PyArg.gen m] => l.length == m.length
  | _, _ => false

/-- The generator consumption of one task: pop the name generator and, when
present, the IP generator. -/
def popArgs : Args → Args
  | [PyArg.gen l] => [PyArg.gen l.tail]
  | [PyArg.gen l, PyArg.str d] => [PyArg.gen l.tail, PyArg.str d]
  | [PyArg.gen l, PyArg.str d, PyArg.gen m] => [PyArg.gen l.tail, PyArg.str d, PyArg.gen m.tail]
  | a => a

/-- Iterated `popArgs`. -/
def popArgsN : Nat → Args → Args
  | 0, a => a
  | n + 1, a => popArgsN n (popArgs a)

/-! ### Spec-side definitions used to state the claims -/

/-- A record name that is safe for the failure-name extraction: no colon, no
`failed` in front, no surrounding whitespace.  Every name the extraction in
`run_in_threads` maps back to itself satisfies this. -/
def goodName (n : String) : Bool :=
  !(n.data.contains ':') && !("failed".data.isPrefixOf n.data)
    && (pyStrip n.data == n.data)

/-- The result shapes a task on record `n` can produce: an exception, a `None`
fall-through, a `runCmd` failure, an `activate_users`/`auth_users` failure
carrying a detail, or a success string `'<n>: <detail>'`. -/
def OutcomeOf (n : String) (o : Except PyErr (Option String)) : Prop :=
  (∃ e, o = Except.error e) ∨ o = Except.ok none ∨
    o = Except.ok (some ("failed: " ++ n)) ∨
    (∃ d, o = Except.ok (some ("failed: " ++ n ++ ": " ++ d))) ∨
    (∃ d, o = Except.ok (some (n ++ ": " ++ d)))

/-- Modelled from the spec's words: a Task Result that the Command Runner
classified as a failure for record `n` — the failure string `'failed: <n>'`
of `runCmd` or the detailed `'failed: <n>: <detail>'` of the activation and
authentication variants. -/
def failResultFor (n : String) (o : Except PyErr (Option String)) : Bool :=
  match o with
  | Except.ok (some r) =>
    r == "failed: " ++ n || ("failed: " ++ n ++ ":").data.isPrefixOf r.data
  | _ => false

/-- Decidable equality of task outcomes (for evaluating the model on concrete
inputs). -/
instance exceptDecEq {ε α : Type} [DecidableEq ε] [DecidableEq α] :
    DecidableEq (Except ε α) := fun x y =>
  match x, y with
  | Except.ok a, Except.ok b =>
    if h : a = b then isTrue (by rw [h]) else isFalse (by simp [h])
  | Except.error a, Except.error b =>
    if h : a = b then isTrue (by rw [h]) else isFalse (by simp [h])
  | Except.ok _, Except.error _ => isFalse (by simp)
  | Except.error _, Except.ok _ => isFalse (by simp)

/-! ### Concrete worlds for the closed instances -/

/-- A world where every command is silent and succeeds (exit 0, no output). -/
def wQuiet : World := ⟨fun _ => "", fun _ => [], fun _ => 0⟩

/-- A world where every command is silent on stderr but exits non-zero. -/
def wQuietBad : World := ⟨fun _ => "", fun _ => [], fun _ => 1⟩

/-- A world where every command prints two stdout lines and nothing on
stderr. -/
def wTwoLines : World := ⟨fun _ => "", fun _ => ["Line one\n", "ok\n"], fun _ => 0⟩

/-- A world where every command fails with stderr text `boom`. -/
def wBoom : World := ⟨fun _ => "boom", fun _ => [], fun _ => 1⟩

/-- A world where exactly the `ipa user-add` commands for records `u1` and
`u3` fail and every other command succeeds with two output lines. -/
def wFailU1U3 : World :=
  ⟨fun c => if c = userAddCmd "u1" ∨ c = userAddCmd "u3" then "ERR" else "",
   fun _ => ["Header\n", "Added\n"], fun _ => 0⟩

/-! ## Helper lemmas: the chunk loop -/

theorem pyRangeAux_congr (step : Nat) (hstep : 0 < step) :
    ∀ f₁ f₂ start stop, stop - start ≤ f₁ → stop - start ≤ f₂ →
      pyRangeAux step f₁ start stop = pyRangeAux step f₂ start stop := by
  intro f₁
  induction f₁ with
  | zero =>
    intro f₂ start stop h1 _
    cases f₂ with
    | zero => rfl
    | succ m =>
      simp only [pyRangeAux]
      rw [if_neg (by omega)]
  | succ n ih =>
    intro f₂ start stop h1 h2
    cases f₂ with
    | zero =>
      simp only [pyRangeAux]
      rw [if_neg (by omega)]
    | succ m =>
      simp only [pyRangeAux]
      by_cases h : start < stop
      · rw [if_pos h, if_pos h, ih m (start + step) stop (by omega) (by omega)]
      · rw [if_neg h, if_neg h]

theorem pyRange_cons (start stop step : Nat) (hstep : 0 < step) (h : start < stop) :
    pyRange start stop step = start :: pyRange (start + step) stop step := by
  unfold pyRange
  rw [if_neg (by omega), if_neg (by omega)]
  have h1 : stop - start = (stop - start - 1) + 1 := by omega
  rw [h1]
  simp only [pyRangeAux]
  rw [if_pos h]
  congr 1
  exact pyRangeAux_congr step hstep _ _ _ _ (by omega) (by omega)

theorem pyRange_nil (start stop step : Nat) (h : ¬ start < stop) :
    pyRange start stop step = [] := by
  unfold pyRange
  by_cases hs : step = 0
  · rw [if_pos hs]
  · rw [if_neg hs]
    have h0 : stop - start = 0 := by omega
    rw [h0]
    rfl

theorem chunkList_cons (start stop csize : Nat) (hc : 0 < csize) (h : start < stop) :
    chunkList start stop csize =
      (start, min (start + csize) stop) :: chunkList (start + csize) stop csize := by
  unfold chunkList
  rw [pyRange_cons start stop csize hc h, List.map_cons]

theorem chunkList_nil (start stop csize : Nat) (h : ¬ start < stop) :
    chunkList start stop csize = [] := by
  unfold chunkList
  rw [pyRange_nil start stop csize h, List.map_nil]

theorem chunkList_ne_nil (start stop csize : Nat) (hc : 0 < csize) (h : start < stop) :
    chunkList start stop csize ≠ [] := by
  rw [chunkList_cons start stop csize hc h]
  exact List.cons_ne_nil _ _

theorem chunkList_flatMap (csize : Nat) (hc : 0 < csize) :
    ∀ n start stop, stop - start ≤ n →
      ((chunkList start stop csize).flatMap fun p => List.range' p.1 (p.2 - p.1)) =
        List.range' start (stop - start) := by
  intro n
  induction n with
  | zero =>
    intro s t h
    rw [chunkList_nil s t csize (by omega)]
    have h0 : t - s = 0 := by omega
    simp [h0]
  | succ m ih =>
    intro s t h
    by_cases hlt : s < t
    · rw [chunkList_cons s t csize hc hlt, List.flatMap_cons]
      by_cases hend : s + csize ≤ t
      · have hmin : min (s + csize) t = s + csize := by omega
        rw [hmin, ih (s + csize) t (by omega)]
        have h1 : s + csize - s = csize := by omega
        rw [h1]
        have h2 := List.range'_append s csize (t - (s + csize)) 1
        simp only [one_mul] at h2
        rw [h2]
        congr 1
        omega
      · have hmin : min (s + csize) t = t := by omega
        rw [hmin, chunkList_nil (s + csize) t csize (by omega)]
        simp
    · rw [chunkList_nil s t csize hlt]
      have h0 : t - s = 0 := by omega
      simp [h0]

theorem pyRange_mem (csize : Nat) (hc : 0 < csize) :
    ∀ n start stop, stop - start ≤ n →
      ∀ a ∈ pyRange start stop csize, start ≤ a ∧ a < stop := by
  intro n
  induction n with
  | zero =>
    intro s t h a ha
    rw [pyRange_nil s t csize (by omega)] at ha
    cases ha
  | succ m ih =>
    intro s t h a ha
    by_cases hlt : s < t
    · rw [pyRange_cons s t csize hc hlt] at ha
      rcases List.mem_cons.mp ha with rfl | ha
      · exact ⟨Nat.le_refl a, hlt⟩
      · have := ih (s + csize) t (by omega) a ha
        exact ⟨by omega, this.2⟩
    · rw [pyRange_nil s t csize hlt] at ha
      cases ha

theorem chunkList_chain (csize : Nat) (hc : 0 < csize) :
    ∀ n start stop, stop - start ≤ n →
      List.Chain' (fun p q : Nat × Nat => p.2 = q.1) (chunkList start stop csize) := by
  intro n
  induction n with
  | zero =>
    intro s t h
    rw [chunkList_nil s t csize (by omega)]
    exact List.chain'_nil
  | succ m ih =>
    intro s t h
    by_cases hlt : s < t
    · rw [chunkList_cons s t csize hc hlt]
      rw [List.chain'_cons']
      refine ⟨fun q hq => ?_, ih (s + csize) t (by omega)⟩
      by_cases hlt2 : s + csize < t
      · rw [chunkList_cons (s + csize) t csize hc hlt2] at hq
        simp only [List.head?_cons, Option.mem_def, Option.some.injEq] at hq
        subst hq
        simp only
        omega
      · rw [chunkList_nil (s + csize) t csize hlt2] at hq
        simp at hq
    · rw [chunkList_nil s t csize hlt]
      exact List.chain'_nil

theorem chunkList_dropLast (csize : Nat) (hc : 0 < csize) :
    ∀ n start stop, stop - start ≤ n →
      ∀ p ∈ (chunkList start stop csize).dropLast, p.2 - p.1 = csize := by
  intro n
  induction n with
  | zero =>
    intro s t h p hp
    rw [chunkList_nil s t csize (by omega)] at hp
    cases hp
  | succ m ih =>
    intro s t h p hp
    by_cases hlt : s < t
    · rw [chunkList_cons s t csize hc hlt] at hp
      by_cases hlt2 : s + csize < t
      · rw [chunkList_cons (s + csize) t csize hc hlt2] at hp
        rw [List.dropLast_cons₂] at hp
        rcases List.mem_cons.mp hp with rfl | hp
        · simp only
          omega
        · rw [← chunkList_cons (s + csize) t csize hc hlt2] at hp
          exact ih (s + csize) t (by omega) p hp
      · rw [chunkList_nil (s + csize) t csize hlt2] at hp
        simp at hp
    · rw [chunkList_nil s t csize hlt] at hp
      cases hp

/-- C1: for every Job Range `[start, stop)` and chunk size `> 0`, the chunk
sub-ranges of the driver loop concatenate, in order, to exactly the index
sequence `start, ..., stop - 1` (hence they are contiguous, non-overlapping,
ascending and cover the range exactly once), every chunk is non-empty of size
at most `csize`, consecutive chunks abut, and every chunk except the last has
size exactly `csize`. -/
theorem claim_C1 (start stop csize : Nat) (hc : 0 < csize) :
    ((chunkList start stop csize).flatMap fun p => List.range' p.1 (p.2 - p.1)) =
      List.range' start (stop - start) ∧
    (∀ p ∈ chunkList start stop csize, p.1 < p.2 ∧ p.2 - p.1 ≤ csize) ∧
    List.Chain' (fun p q : Nat × Nat => p.2 = q.1) (chunkList start stop csize) ∧
    (∀ p ∈ (chunkList start stop csize).dropLast, p.2 - p.1 = csize) := by
  refine ⟨chunkList_flatMap csize hc _ start stop (Nat.le_refl _), ?_, ?_, ?_⟩
  · intro p hp
    unfold chunkList at hp
    rcases List.mem_map.mp hp with ⟨a, ha, rfl⟩
    have := pyRange_mem csize hc _ start stop (Nat.le_refl _) a ha
    constructor
    · simp only
      omega
    · simp only
      omega
  · exact chunkList_chain csize hc _ start stop (Nat.le_refl _)
  · exact chunkList_dropLast csize hc _ start stop (Nat.le_refl _)

/-- C1 witness: the spec's own example `[0, 5)` with chunk size 2 gives the
chunks `[0,2), [2,4), [4,5)`. -/
theorem claim_C1_witness :
    0 < 2 ∧ chunkList 0 5 2 = [(0, 2), (2, 4), (4, 5)] ∧
      ((chunkList 0 5 2).flatMap fun p => List.range' p.1 (p.2 - p.1)) =
        List.range' 0 (5 - 0) :=
  ⟨by decide, by decide, (claim_C1 0 5 2 (by decide)).1⟩

/-! ## Helper lemmas: `processOutcomes` skips `None` results -/

theorem processOutcomes_none_middle (pre post : List (Except PyErr (Option String))) :
    processOutcomes (pre ++ Except.ok none :: post) = processOutcomes (pre ++ post) := by
  induction pre with
  | nil => rfl
  | cons o rest ih =>
    cases o with
    | error e => simpa [processOutcomes] using ih
    | ok v =>
      cases v with
      | none => simpa [processOutcomes] using ih
      | some r =>
        simp only [List.cons_append, processOutcomes, List.append_eq]
        rw [ih]

/-! ## Claims about `runCmd` (the Command Runner) -/

/-- C3: for every external operation, `runCmd` classifies the outcome as a
failure exactly when the stripped stderr text is non-empty, and the result is
a function of stderr and stdout alone — two worlds that agree on those but
differ arbitrarily in exit status produce identical results, so a command that
is silent on stderr is classified as a success (or raises on a one-line
output, or yields no result) even when its exit status is non-zero. -/
theorem claim_C3 (w₁ w₂ : World) (cmd : List String) (name : String)
    (herr : w₁.stderrOf cmd = w₂.stderrOf cmd)
    (hout : w₁.stdoutOf cmd = w₂.stdoutOf cmd) :
    runCmd w₁ cmd name = runCmd w₂ cmd name ∧
    (pyStripStr (w₁.stderrOf cmd) ≠ "" →
      runCmd w₁ cmd name = Except.ok (some ("failed: " ++ name))) ∧
    (pyStripStr (w₁.stderrOf cmd) = "" →
      runCmd w₁ cmd name = Except.ok none ∨
      runCmd w₁ cmd name = Except.error PyErr.indexError ∨
      ∃ l, (w₁.stdoutOf cmd).get? 1 = some l ∧
        runCmd w₁ cmd name = Except.ok (some (name ++ ": " ++ pyStripStr l))) := by
  refine ⟨?_, ?_, ?_⟩
  · unfold runCmd
    rw [herr, hout]
  · intro h
    unfold runCmd
    rw [if_pos h]
  · intro h
    unfold runCmd
    rw [if_neg (by simp [h])]
    by_cases hlen : (w₁.stdoutOf cmd).length > 0
    · rw [if_pos hlen]
      cases hget : (w₁.stdoutOf cmd).get? 1 with
      | none => exact Or.inr (Or.inl rfl)
      | some l => exact Or.inr (Or.inr ⟨l, rfl, rfl⟩)
    · rw [if_neg hlen]
      exact Or.inl rfl

/-- C3 witness: in the quiet worlds (no stderr, no stdout) the results agree
although one world reports exit status 0 and the other exit status 1. -/
theorem claim_C3_witness :
    wQuiet.stderrOf ["some", "command"] = wQuietBad.stderrOf ["some", "command"] ∧
    wQuiet.exitOf ["some", "command"] ≠ wQuietBad.exitOf ["some", "command"] ∧
    runCmd wQuiet ["some", "command"] "n" = runCmd wQuietBad ["some", "command"] "n" :=
  ⟨rfl, by decide, (claim_C3 wQuiet wQuietBad ["some", "command"] "n" rfl rfl).1⟩

/-- C5 fails as stated: on a failure (non-empty stderr `boom`) `runCmd`
returns `'failed: <name>'` with no error detail, not
`'failed: <name>: <error detail>'`. -/
theorem claim_C5_counterexample :
    runCmd wBoom ["some", "command"] "u1" = Except.ok (some "failed: u1") ∧
    ("failed: u1" : String) ≠ "failed: u1: boom" := by
  exact ⟨by decide, by decide⟩

/-- C5 amended: on success (empty stripped stderr) with at least two output
lines `runCmd` returns `'<name>: <second output line, stripped>'` (not the
last non-empty line); with exactly one output line it raises an uncaught
`IndexError`; on failure it returns `'failed: <name>'` without the error
detail; with no output and no error text it returns `None`, which the result
loop of `run_in_threads` counts as neither success nor failure. -/
theorem claim_C5_amended (w : World) (cmd : List String) (name : String) :
    (pyStripStr (w.stderrOf cmd) ≠ "" →
      runCmd w cmd name = Except.ok (some ("failed: " ++ name))) ∧
    (pyStripStr (w.stderrOf cmd) = "" → ∀ l₀ l₁ rest,
      w.stdoutOf cmd = l₀ :: l₁ :: rest →
      runCmd w cmd name = Except.ok (some (name ++ ": " ++ pyStripStr l₁))) ∧
    (pyStripStr (w.stderrOf cmd) = "" → ∀ l₀, w.stdoutOf cmd = [l₀] →
      runCmd w cmd name = Except.error PyErr.indexError) ∧
    (pyStripStr (w.stderrOf cmd) = "" → w.stdoutOf cmd = [] →
      runCmd w cmd name = Except.ok none) ∧
    (∀ pre post, processOutcomes (pre ++ Except.ok none :: post) =
      processOutcomes (pre ++ post)) := by
  refine ⟨?_, ?_, ?_, ?_, processOutcomes_none_middle⟩
  · intro h
    unfold runCmd
    rw [if_pos h]
  · intro h l₀ l₁ rest hout
    unfold runCmd
    rw [if_neg (by simp [h]), hout]
    rfl
  · intro h l₀ hout
    unfold runCmd
    rw [if_neg (by simp [h]), hout]
    rfl
  · intro h hout
    unfold runCmd
    rw [if_neg (by simp [h]), hout]
    rfl

/-- C5 amended, witness: the two-line world succeeds with the second line
`ok`, and the `boom` world fails without detail. -/
theorem claim_C5_amended_witness :
    pyStripStr (wTwoLines.stderrOf ["c"]) = "" ∧
    runCmd wTwoLines ["c"] "u1" = Except.ok (some ("u1" ++ ": " ++ pyStripStr "ok\n")) :=
  ⟨rfl, (claim_C5_amended wTwoLines ["c"] "u1").2.1 rfl "Line one\n" "ok\n" [] rfl⟩

/-! ## Claims about the generators and the clamp -/

/-- C6: for `start ≤ stop` the name generator yields exactly
`<base><start>, ..., <base><stop>` (the stop index included), in ascending
index order, and the IP generator yields `10.10.<i / 256>.<i % 256>` for the
same indices, paired positionally: the k-th name and the k-th IP both use
index `start + k`. -/
theorem claim_C6 (base : String) (start stop : Nat) (h : start ≤ stop) :
    (namesGen base start stop).length = stop + 1 - start ∧
    (ipsGen start stop).length = stop + 1 - start ∧
    ∀ k, k < stop + 1 - start →
      (namesGen base start stop)[k]? = some (base ++ toString (start + k)) ∧
      (ipsGen start stop)[k]? =
        some ("10.10." ++ toString ((start + k) / 256) ++ "." ++
          toString ((start + k) % 256)) := by
  refine ⟨by simp [namesGen], by simp [ipsGen], fun k hk => ⟨?_, ?_⟩⟩
  · unfold namesGen
    rw [List.getElem?_map, List.getElem?_range' start 1 hk]
    simp
  · unfold ipsGen
    rw [List.getElem?_map, List.getElem?_range' start 1 hk]
    simp

/-- C6 witness: base `user`, range 0..2 — the spec's own example sequence
`user0, user1, user2` and `10.10.0.0, 10.10.0.1, 10.10.0.2`. -/
theorem claim_C6_witness :
    0 ≤ 2 ∧ (namesGen "user" 0 2)[1]? = some ("user" ++ toString (0 + 1)) ∧
    (ipsGen 0 2)[1]? =
      some ("10.10." ++ toString ((0 + 1) / 256) ++ "." ++ toString ((0 + 1) % 256)) :=
  ⟨Nat.zero_le 2, ((claim_C6 "user" 0 2 (Nat.zero_le 2)).2.2 1 (by decide)).1,
    ((claim_C6 "user" 0 2 (Nat.zero_le 2)).2.2 1 (by decide)).2⟩

/-- C7: the effective worker count is `threads` exactly on `{1, ..., 9}` and 5
otherwise; in particular inputs 0, 1, 10 and 15 resolve to 5, 1, 5 and 5. -/
theorem claim_C7 :
    (∀ t : Int, (1 ≤ t ∧ t ≤ 9 → effectiveThreads t = t) ∧
      (¬(1 ≤ t ∧ t ≤ 9) → effectiveThreads t = 5)) ∧
    effectiveThreads 0 = 5 ∧ effectiveThreads 1 = 1 ∧
    effectiveThreads 10 = 5 ∧ effectiveThreads 15 = 5 := by
  refine ⟨fun t => ⟨fun h => ?_, fun h => ?_⟩, by decide, by decide, by decide, by decide⟩
  · have hc : 0 < t ∧ t < 10 := by omega
    simp [effectiveThreads, hc]
  · have hc : ¬(0 < t ∧ t < 10) := by omega
    simp [effectiveThreads, hc]

/-- C7 witness: 3 is in range and passes through unchanged. -/
theorem claim_C7_witness : (1 ≤ (3 : Int) ∧ (3 : Int) ≤ 9) ∧ effectiveThreads 3 = 3 :=
  ⟨by decide, (claim_C7.1 3).1 (by decide)⟩

/-! ## Claim C8: argument validation -/

/-- C8 fails as stated: with a non-numeric `start` (`x`) the program does not
print the usage message — `int('x')` raises an uncaught `ValueError` and the
run dies with a traceback (still before any provisioning work). -/
theorem claim_C8_counterexample :
    checkArgs ["usermk", "u", "x", "5", "2", "3"] = MainStart.crash ∧
    MainStart.crash ≠ MainStart.usage := by
  exact ⟨by decide, by decide⟩

/-- C8 amended: the program prints the usage message and stops before any work
when fewer than 6 arguments are given, when the mode keyword is unrecognized,
when a mode needing a seventh argument gets fewer than 7 arguments, or when
the four numeric positions all parse as integers but one of them is negative.
A value that is not an integer literal at all instead terminates the run with
an uncaught `ValueError` — also before any work, but without the usage
message.  When everything validates, the run proceeds with the parsed
integers. -/
theorem claim_C8_amended (args : List String) :
    (args.length < 6 → checkArgs args = MainStart.usage) ∧
    (6 ≤ args.length → modeNames.contains (args.headD "") = false →
      checkArgs args = MainStart.usage) ∧
    (6 ≤ args.length → extraModes.contains (args.headD "") = true →
      args.length < 7 → checkArgs args = MainStart.usage) ∧
    (6 ≤ args.length → modeNames.contains (args.headD "") = true →
      (extraModes.contains (args.headD "") = true → 7 ≤ args.length) →
      ((args.drop 2).take 4).mapM pyInt? = none →
      checkArgs args = MainStart.crash) ∧
    (∀ vs : List Int, 6 ≤ args.length → modeNames.contains (args.headD "") = true →
      (extraModes.contains (args.headD "") = true → 7 ≤ args.length) →
      ((args.drop 2).take 4).mapM pyInt? = some vs →
      (∃ v ∈ vs, v < 0) → checkArgs args = MainStart.usage) ∧
    (∀ vs : List Int, 6 ≤ args.length → modeNames.contains (args.headD "") = true →
      (extraModes.contains (args.headD "") = true → 7 ≤ args.length) →
      ((args.drop 2).take 4).mapM pyInt? = some vs →
      (∀ v ∈ vs, 0 ≤ v) → checkArgs args = MainStart.proceed vs) := by
  refine ⟨?_, ?_, ?_, ?_, ?_, ?_⟩
  · intro h
    unfold checkArgs
    rw [if_pos h]
  · intro h hm
    unfold checkArgs
    rw [if_neg (by omega), if_pos (by rw [hm]; rfl)]
  · intro h hx h7
    unfold checkArgs
    rw [if_neg (by omega)]
    by_cases hm : modeNames.contains (args.headD "") = true
    · rw [if_neg (by rw [hm]; simp), if_pos (by rw [hx, Bool.true_and, decide_eq_true_eq]; omega)]
    · rw [if_pos (by rw [Bool.not_eq_true] at hm; rw [hm]; rfl)]
  · intro h hm hx hparse
    unfold checkArgs
    rw [if_neg (by omega), if_neg (by rw [hm]; simp)]
    rw [if_neg (fun hc => by
      rw [Bool.and_eq_true, decide_eq_true_eq] at hc
      exact absurd (hx hc.1) (by omega)), hparse]
  · intro vs h hm hx hparse hex
    obtain ⟨v, hv, hneg⟩ := hex
    unfold checkArgs
    rw [if_neg (by omega), if_neg (by rw [hm]; simp)]
    rw [if_neg (fun hc => by
      rw [Bool.and_eq_true, decide_eq_true_eq] at hc
      exact absurd (hx hc.1) (by omega)), hparse]
    show (if vs.all (fun v => 0 ≤ v) then MainStart.proceed vs else MainStart.usage) =
      MainStart.usage
    rw [if_neg (fun hall => by
      rw [List.all_eq_true] at hall
      have h0 := of_decide_eq_true (hall v hv)
      omega)]
  · intro vs h hm hx hparse hall
    unfold checkArgs
    rw [if_neg (by omega), if_neg (by rw [hm]; simp)]
    rw [if_neg (fun hc => by
      rw [Bool.and_eq_true, decide_eq_true_eq] at hc
      exact absurd (hx hc.1) (by omega)), hparse]
    show (if vs.all (fun v => 0 ≤ v) then MainStart.proceed vs else MainStart.usage) =
      MainStart.proceed vs
    rw [if_pos (by
      rw [List.all_eq_true]
      intro v hv
      exact decide_eq_true (hall v hv))]

/-- C8 amended, witness: a fully valid command line proceeds with the parsed
integers, and an invalid short command line yields usage. -/
theorem claim_C8_amended_witness :
    6 ≤ (["usermk", "u", "0", "5", "2", "3"] : List String).length ∧
    checkArgs ["usermk", "u", "0", "5", "2", "3"] = MainStart.proceed [0, 5, 2, 3] ∧
    checkArgs ["usermk"] = MainStart.usage :=
  ⟨by decide,
    (claim_C8_amended ["usermk", "u", "0", "5", "2", "3"]).2.2.2.2.2 [0, 5, 2, 3]
      (by decide) (by decide) (fun hx => absurd hx (by decide)) (by decide)
      (by decide),
    (claim_C8_amended ["usermk"]).1 (by decide)⟩

/-! ## Helper lemmas: the failure-name extraction of `run_in_threads` -/

theorem splitCh_no_sep (sep : Char) :
    ∀ cs : List Char, sep ∉ cs → splitCh sep cs = [cs] := by
  intro cs
  induction cs with
  | nil => intro _; rfl
  | cons c rest ih =>
    intro h
    have hc : ¬ c = sep := fun hh => h (hh ▸ List.mem_cons_self c rest)
    simp only [splitCh]
    rw [if_neg hc, ih (fun hmem => h (List.mem_cons_of_mem c hmem))]
    rfl

theorem splitCh_before_sep (sep : Char) :
    ∀ xs ys : List Char, sep ∉ xs →
      splitCh sep (xs ++ sep :: ys) = xs :: splitCh sep ys := by
  intro xs
  induction xs with
  | nil =>
    intro ys _
    simp [splitCh]
  | cons c rest ih =>
    intro ys h
    have hc : ¬ c = sep := fun hh => h (hh ▸ List.mem_cons_self c rest)
    have ih2 := ih ys (fun hmem => h (List.mem_cons_of_mem c hmem))
    simp only [List.cons_append, splitCh, List.append_eq]
    rw [if_neg hc, ih2]
    rfl

theorem pyStrip_space (cs : List Char) : pyStrip (' ' :: cs) = pyStrip cs := by
  unfold pyStrip
  rw [List.dropWhile_cons, if_pos (by decide)]

theorem no_colon_cons (n : String) (hc : ':' ∉ n.data) : (':' : Char) ∉ ' ' :: n.data := by
  intro hmem
  rcases List.mem_cons.mp hmem with h | h
  · exact absurd h (by decide)
  · exact hc h

theorem extractName_failedForm (n : String) (hc : ':' ∉ n.data)
    (hs : pyStrip n.data = n.data) : extractName ("failed: " ++ n) = n := by
  unfold extractName
  have hdata : ("failed: " ++ n).data = "failed".data ++ ':' :: ' ' :: n.data := by
    rw [String.data_append]; rfl
  rw [hdata, splitCh_before_sep ':' "failed".data (' ' :: n.data) (by decide),
    splitCh_no_sep ':' (' ' :: n.data) (no_colon_cons n hc)]
  show String.mk (pyStrip (' ' :: n.data)) = n
  rw [pyStrip_space, hs]

theorem extractName_failedDetail (n e : String) (hc : ':' ∉ n.data)
    (hs : pyStrip n.data = n.data) :
    extractName ("failed: " ++ n ++ ": " ++ e) = n := by
  unfold extractName
  have hdata : ("failed: " ++ n ++ ": " ++ e).data =
      "failed".data ++ ':' :: (' ' :: n.data ++ ':' :: ' ' :: e.data) := by
    simp [String.data_append]
  rw [hdata, splitCh_before_sep ':' "failed".data _ (by decide),
    splitCh_before_sep ':' (' ' :: n.data) (' ' :: e.data) (no_colon_cons n hc)]
  show String.mk (pyStrip (' ' :: n.data)) = n
  rw [pyStrip_space, hs]

theorem startswith_failedForm (n : String) :
    pyStartswith ("failed: " ++ n) "failed" = true := by
  unfold pyStartswith
  rw [List.isPrefixOf_iff_prefix]
  have hdata : ("failed: " ++ n).data = "failed".data ++ ':' :: ' ' :: n.data := by
    rw [String.data_append]; rfl
  rw [hdata]
  exact List.prefix_append _ _

theorem startswith_failedDetail (n e : String) :
    pyStartswith ("failed: " ++ n ++ ": " ++ e) "failed" = true := by
  unfold pyStartswith
  rw [List.isPrefixOf_iff_prefix]
  have hdata : ("failed: " ++ n ++ ": " ++ e).data =
      "failed".data ++ (':' :: (' ' :: n.data ++ ':' :: ' ' :: e.data)) := by
    simp [String.data_append]
  rw [hdata]
  exact List.prefix_append _ _

theorem startswith_success (n d : String) (hp : ¬ ("failed".data <+: n.data))
    (hc : ':' ∉ n.data) : pyStartswith (n ++ ": " ++ d) "failed" = false := by
  unfold pyStartswith
  rw [Bool.eq_false_iff]
  intro habs
  rw [List.isPrefixOf_iff_prefix] at habs
  have hdata : (n ++ ": " ++ d).data = n.data ++ ':' :: ' ' :: d.data := by
    simp [String.data_append]
  rw [hdata] at habs
  rcases List.prefix_or_prefix_of_prefix habs
      (List.prefix_append n.data (':' :: ' ' :: d.data)) with hh | hh
  · exact hp hh
  · obtain ⟨t, ht⟩ := hh
    rw [← ht, List.prefix_append_right_inj] at habs
    cases t with
    | nil =>
      rw [List.append_nil] at ht
      apply hp
      rw [← ht]
    | cons c t' =>
      obtain ⟨hcolon, -⟩ := List.cons_prefix_cons.mp habs
      subst hcolon
      have hmem : (':' : Char) ∈ "failed".data := by
        rw [← ht]
        exact List.mem_append_right _ (List.mem_cons_self _ _)
      exact absurd hmem (by decide)

/-! ## Helper lemmas: task outcomes and the failure list -/

theorem runCmd_outcome (w : World) (c : List String) (x : String) :
    OutcomeOf x (runCmd w c x) := by
  unfold runCmd OutcomeOf
  by_cases h : pyStripStr (w.stderrOf c) ≠ ""
  · rw [if_pos h]
    exact Or.inr (Or.inr (Or.inl rfl))
  · rw [if_neg h]
    by_cases h2 : (w.stdoutOf c).length > 0
    · rw [if_pos h2]
      cases hget : (w.stdoutOf c).get? 1 with
      | none => exact Or.inl ⟨_, rfl⟩
      | some l => exact Or.inr (Or.inr (Or.inr (Or.inr ⟨_, rfl⟩)))
    · rw [if_neg h2]
      exact Or.inr (Or.inl rfl)

theorem failResultFor_startswith (n r : String)
    (h : failResultFor n (Except.ok (some r)) = true) :
    pyStartswith r "failed" = true := by
  unfold failResultFor at h
  rcases Bool.or_eq_true _ _ |>.mp h with h1 | h2
  · have : r = "failed: " ++ n := by
      have := beq_iff_eq.mp h1
      exact this
    rw [this]
    exact startswith_failedForm n
  · unfold pyStartswith
    rw [List.isPrefixOf_iff_prefix]
    have hpre := List.isPrefixOf_iff_prefix.mp h2
    refine List.IsPrefix.trans ?_ hpre
    have hdata : ("failed: " ++ n ++ ":").data =
        "failed".data ++ (':' :: ' ' :: n.data ++ [':']) := by
      simp [String.data_append]
    rw [hdata]
    exact List.prefix_append _ _

theorem goodName_split (n : String) (h : goodName n = true) :
    ':' ∉ n.data ∧ ¬ ("failed".data <+: n.data) ∧ pyStrip n.data = n.data := by
  unfold goodName at h
  rw [Bool.and_eq_true, Bool.and_eq_true] at h
  obtain ⟨⟨hnc, hnp⟩, hns⟩ := h
  rw [Bool.not_eq_true'] at hnc hnp
  refine ⟨?_, ?_, beq_iff_eq.mp hns⟩
  · intro hmem
    have h2 : List.elem ':' n.data = false := hnc
    rw [List.elem_iff.mpr hmem] at h2
    cases h2
  · intro hpre
    rw [← List.isPrefixOf_iff_prefix] at hpre
    rw [hpre] at hnp
    cases hnp

theorem processOutcomes_spec :
    ∀ L : List (String × Except PyErr (Option String)),
      (∀ p ∈ L, goodName p.1 = true) → (∀ p ∈ L, OutcomeOf p.1 p.2) →
      processOutcomes (L.map Prod.snd) =
        (L.filter fun p => failResultFor p.1 p.2).map Prod.fst := by
  intro L
  induction L with
  | nil => intro _ _; rfl
  | cons p rest ih =>
    intro hwf hout
    obtain ⟨hcolon, hnopre, hstrip⟩ := goodName_split p.1 (hwf p (List.mem_cons_self p rest))
    have ihr := ih (fun q hq => hwf q (List.mem_cons_of_mem p hq))
      (fun q hq => hout q (List.mem_cons_of_mem p hq))
    rcases hout p (List.mem_cons_self p rest) with ⟨e, ho⟩ | ho | ho | ⟨d, ho⟩ | ⟨d, ho⟩
    · have hfr : failResultFor p.1 p.2 = false := by rw [ho]; rfl
      rw [List.map_cons, ho, List.filter_cons, if_neg (by simp [hfr])]
      cases e <;> simpa [processOutcomes] using ihr
    · have hfr : failResultFor p.1 p.2 = false := by rw [ho]; rfl
      rw [List.map_cons, ho, List.filter_cons, if_neg (by simp [hfr])]
      simpa [processOutcomes] using ihr
    · have hfr : failResultFor p.1 p.2 = true := by
        rw [ho]
        unfold failResultFor
        rw [Bool.or_eq_true]
        exact Or.inl (beq_iff_eq.mpr rfl)
      rw [List.map_cons, ho, List.filter_cons, if_pos hfr]
      simp only [processOutcomes, if_pos (startswith_failedForm p.1), List.map_cons]
      rw [extractName_failedForm p.1 hcolon hstrip, ihr]
    · have hfr : failResultFor p.1 p.2 = true := by
        rw [ho]
        unfold failResultFor
        rw [Bool.or_eq_true]
        refine Or.inr ?_
        rw [List.isPrefixOf_iff_prefix]
        refine ⟨' ' :: d.data, ?_⟩
        simp [String.data_append]
      rw [List.map_cons, ho, List.filter_cons, if_pos hfr]
      simp only [processOutcomes, if_pos (startswith_failedDetail p.1 d), List.map_cons]
      rw [extractName_failedDetail p.1 d hcolon hstrip, ihr]
    · have hsw : pyStartswith (p.1 ++ ": " ++ d) "failed" = false :=
        startswith_success p.1 d hnopre hcolon
      have hfr : failResultFor p.1 p.2 = false := by
        rw [ho, Bool.eq_false_iff]
        intro habs
        have hca := failResultFor_startswith p.1 _ habs
        rw [hsw] at hca
        cases hca
      rw [List.map_cons, ho, List.filter_cons, if_neg (by simp [hfr])]
      simp only [processOutcomes, if_neg (by simp [hsw] :
        ¬ pyStartswith (p.1 ++ ": " ++ d) "failed" = true)]
      exact ihr

theorem processOutcomes_allError :
    ∀ outs : List (Except PyErr (Option String)),
      (∀ o ∈ outs, ∃ er, o = Except.error er) → processOutcomes outs = [] := by
  intro outs
  induction outs with
  | nil => intro _; rfl
  | cons o rest ih =>
    intro h
    obtain ⟨er, ho⟩ := h o (List.mem_cons_self o rest)
    rw [ho]
    exact ih (fun q hq => h q (List.mem_cons_of_mem o hq))

theorem runTasks_length (w : World) (cmd : Cmd) :
    ∀ (n : Nat) (args : Args), (runTasks w cmd n args).1.length = n := by
  intro n
  induction n with
  | zero => intro args; rfl
  | succ k ih =>
    intro args
    simp only [runTasks, List.length_cons]
    rw [ih]

theorem cmdTable_cases (action : String) (cmd : Cmd) (hcmd : (action, cmd) ∈ cmdTable) :
    (action = "usermk" ∧ cmd = make_users) ∨ (action = "hostmk" ∧ cmd = make_hosts) ∨
    (action = "groupmk" ∧ cmd = make_groups) ∨ (action = "useract" ∧ cmd = activate_users) ∨
    (action = "userauth" ∧ cmd = auth_users) := by
  simp only [cmdTable, List.mem_cons, List.mem_singleton, Prod.mk.injEq,
    List.not_mem_nil, or_false] at hcmd
  exact hcmd

theorem cmd_step (action : String) (cmd : Cmd) (hcmd : (action, cmd) ∈ cmdTable)
    (w : World) (args : Args) (x : String) (xs : List String)
    (hshape : argsShape action args = true) (hgen : gen0Of args = x :: xs) :
    OutcomeOf x (cmd w args).1 ∧ (cmd w args).2 = popArgs args ∧
      argsShape action (popArgs args) = true ∧ gen0Of (popArgs args) = xs := by
  rcases cmdTable_cases action cmd hcmd with
    ⟨rfl, rfl⟩ | ⟨rfl, rfl⟩ | ⟨rfl, rfl⟩ | ⟨rfl, rfl⟩ | ⟨rfl, rfl⟩
  · -- usermk / make_users
    rcases args with _ | ⟨a0, args0⟩
    · simp [argsShape] at hshape
    rcases a0 with l | s
    · rcases args0 with _ | ⟨a1, args1⟩
      · have hl : l = x :: xs := hgen
        subst hl
        exact ⟨runCmd_outcome w _ x, rfl, rfl, rfl⟩
      · simp [argsShape] at hshape
    · simp [argsShape] at hshape
  · -- hostmk / make_hosts
    rcases args with _ | ⟨a0, args0⟩
    · simp [argsShape] at hshape
    rcases a0 with l | s
    · rcases args0 with _ | ⟨a1, args1⟩
      · simp [argsShape] at hshape
      rcases a1 with l1 | dz
      · simp [argsShape] at hshape
      rcases args1 with _ | ⟨a2, args2⟩
      · simp [argsShape] at hshape
      rcases a2 with m | s2
      · rcases args2 with _ | ⟨a3, args3⟩
        · have hl : l = x :: xs := hgen
          subst hl
          simp only [argsShape] at hshape
          have hlen : (x :: xs).length = m.length := by
            exact beq_iff_eq.mp hshape
          rcases m with _ | ⟨ip, ips⟩
          · simp at hlen
          refine ⟨?_, rfl, ?_, rfl⟩
          · show OutcomeOf x
              (make_hosts w [PyArg.gen (x :: xs), PyArg.str dz, PyArg.gen (ip :: ips)]).1
            cases hr : runCmd w (hostAddCmd x dz) x with
            | error e =>
              left
              exact ⟨e, by simp [make_hosts, hr]⟩
            | ok v =>
              have hres : (make_hosts w
                  [PyArg.gen (x :: xs), PyArg.str dz, PyArg.gen (ip :: ips)]).1 =
                  runCmd w (dnsRecordCmd dz x ip) x := by
                simp [make_hosts, hr]
              rw [hres]
              exact runCmd_outcome w _ x
          · show argsShape "hostmk" [PyArg.gen xs, PyArg.str dz, PyArg.gen ips] = true
            simp only [argsShape]
            exact beq_iff_eq.mpr (by simp at hlen; omega)
        · simp [argsShape] at hshape
      · simp [argsShape] at hshape
    · simp [argsShape] at hshape
  · -- groupmk / make_groups
    rcases args with _ | ⟨a0, args0⟩
    · simp [argsShape] at hshape
    rcases a0 with l | s
    · rcases args0 with _ | ⟨a1, args1⟩
      · have hl : l = x :: xs := hgen
        subst hl
        exact ⟨runCmd_outcome w _ x, rfl, rfl, rfl⟩
      · simp [argsShape] at hshape
    · simp [argsShape] at hshape
  · -- useract / activate_users
    rcases args with _ | ⟨a0, args0⟩
    · simp [argsShape] at hshape
    rcases a0 with l | s
    · rcases args0 with _ | ⟨a1, args1⟩
      · simp [argsShape] at hshape
      rcases a1 with l1 | pw
      · simp [argsShape] at hshape
      rcases args1 with _ | ⟨a2, args2⟩
      · have hl : l = x :: xs := hgen
        subst hl
        refine ⟨?_, rfl, rfl, rfl⟩
        show OutcomeOf x (activate_users w [PyArg.gen (x :: xs), PyArg.str pw]).1
        by_cases hresp : (w.stdoutOf (passwdCmd x)).length = 1
        · left
          exact ⟨PyErr.indexError, by simp [activate_users, hresp]⟩
        · by_cases herr : pyStripStr (w.stderrOf (kinitCmd x)) ≠ ""
          · right; right; right; left
            exact ⟨pyStripStr (w.stderrOf (kinitCmd x)),
              by simp [activate_users, hresp, herr]⟩
          · right; right; right; right
            refine ⟨"kinit: successful", ?_⟩
            have hres : (activate_users w [PyArg.gen (x :: xs), PyArg.str pw]).1 =
                Except.ok (some (x ++ ": kinit: successful")) := by
              simp [activate_users, hresp, herr]
            have hlit : (": " ++ "kinit: successful" : String) = ": kinit: successful" := rfl
            rw [hres, String.append_assoc, hlit]
      · simp [argsShape] at hshape
    · simp [argsShape] at hshape
  · -- userauth / auth_users
    rcases args with _ | ⟨a0, args0⟩
    · simp [argsShape] at hshape
    rcases a0 with l | s
    · rcases args0 with _ | ⟨a1, args1⟩
      · simp [argsShape] at hshape
      rcases a1 with l1 | pw
      · simp [argsShape] at hshape
      rcases args1 with _ | ⟨a2, args2⟩
      · have hl : l = x :: xs := hgen
        subst hl
        refine ⟨?_, rfl, rfl, rfl⟩
        show OutcomeOf x (auth_users w [PyArg.gen (x :: xs), PyArg.str pw]).1
        by_cases herr : pyStripStr (w.stderrOf (kinitCmd x)) ≠ ""
        · right; right; right; left
          exact ⟨pyStripStr (w.stderrOf (kinitCmd x)), by simp [auth_users, herr]⟩
        · right; right; right; right
          refine ⟨"kinit: successful", ?_⟩
          have hres : (auth_users w [PyArg.gen (x :: xs), PyArg.str pw]).1 =
              Except.ok (some (x ++ ": kinit: successful")) := by
            simp [auth_users, herr]
          have hlit : (": " ++ "kinit: successful" : String) = ": kinit: successful" := rfl
          rw [hres, String.append_assoc, hlit]
      · simp [argsShape] at hshape
    · simp [argsShape] at hshape

theorem runTasks_spec (action : String) (cmd : Cmd) (hcmd : (action, cmd) ∈ cmdTable)
    (w : World) :
    ∀ (k : Nat) (args : Args), argsShape action args = true →
      k ≤ (gen0Of args).length →
      ∃ L : List (String × Except PyErr (Option String)),
        (runTasks w cmd k args).1 = L.map Prod.snd ∧
        L.map Prod.fst = (gen0Of args).take k ∧
        (∀ p ∈ L, OutcomeOf p.1 p.2) ∧
        argsShape action (runTasks w cmd k args).2 = true ∧
        gen0Of (runTasks w cmd k args).2 = (gen0Of args).drop k := by
  intro k
  induction k with
  | zero =>
    intro args hshape _
    refine ⟨[], rfl, by simp, ?_, hshape, rfl⟩
    intro p hp
    cases hp
  | succ j ih =>
    intro args hshape hlen
    rcases hg : gen0Of args with _ | ⟨x, xs⟩
    · rw [hg] at hlen
      simp at hlen
    obtain ⟨ho, hst, hshape2, hg2⟩ := cmd_step action cmd hcmd w args x xs hshape hg
    have hshape2' : argsShape action (cmd w args).2 = true := by rw [hst]; exact hshape2
    have hg2' : gen0Of (cmd w args).2 = xs := by rw [hst]; exact hg2
    have hlen2 : j ≤ (gen0Of (cmd w args).2).length := by
      rw [hg2']
      rw [hg] at hlen
      simp at hlen
      omega
    obtain ⟨L, hL1, hL2, hL3, hL4, hL5⟩ := ih (cmd w args).2 hshape2' hlen2
    refine ⟨(x, (cmd w args).1) :: L, ?_, ?_, ?_, ?_, ?_⟩
    · show (cmd w args).1 :: (runTasks w cmd j (cmd w args).2).1 = _
      rw [hL1]
      rfl
    · rw [List.map_cons, hL2, hg2']
      rfl
    · intro p hp
      rcases List.mem_cons.mp hp with rfl | hp
      · exact ho
      · exact hL3 p hp
    · show argsShape action (runTasks w cmd j (cmd w args).2).2 = true
      exact hL4
    · show gen0Of (runTasks w cmd j (cmd w args).2).2 = _
      rw [hL5, hg2']
      rfl

theorem run_in_threads_spec (action : String) (cmd : Cmd) (hcmd : (action, cmd) ∈ cmdTable)
    (w : World) (threads : Nat) (args : Args) (s e : Nat)
    (hshape : argsShape action args = true) (hlen : e - s ≤ (gen0Of args).length) :
    ∃ L : List (String × Except PyErr (Option String)),
      L.map Prod.fst = (gen0Of args).take (e - s) ∧
      (∀ p ∈ L, OutcomeOf p.1 p.2) ∧
      (run_in_threads w threads cmd args s e).1 = processOutcomes (L.map Prod.snd) ∧
      argsShape action (run_in_threads w threads cmd args s e).2 = true ∧
      gen0Of (run_in_threads w threads cmd args s e).2 = (gen0Of args).drop (e - s) := by
  obtain ⟨L, hL1, hL2, hL3, hL4, hL5⟩ := runTasks_spec action cmd hcmd w (e - s) args hshape hlen
  exact ⟨L, hL2, hL3, by show processOutcomes (runTasks w cmd (e - s) args).1 = _; rw [hL1],
    hL4, hL5⟩

/-! ## Claim C4: the batch executor's failure list -/

/-- C4 fails as stated: with base name `failed` a perfectly successful task
(`failed0`, empty stderr, two output lines) produces the result string
`failed0: ok`, which `run_in_threads` mistakes for a failure; the returned
list is `[ok]` — a fragment of the result text, not the Record Name of any
failed task (there were none). -/
theorem claim_C4_counterexample :
    runCmd wTwoLines (userAddCmd "failed0") "failed0" =
      Except.ok (some "failed0: ok") ∧
    (run_in_threads wTwoLines 1 make_users [PyArg.gen ["failed0"]] 0 1).1 = ["ok"] ∧
    ("ok" : String) ≠ "failed0" := by
  exact ⟨by decide, by decide, by decide⟩

/-- C4 amended: provided every Record Name in the generator contains no
colon, does not begin with `failed` and carries no surrounding whitespace,
every invocation of the Batch Executor submits exactly one task per index of
`[start, stop)`, and the returned list is exactly the Record Names (not the
full result strings) of the tasks whose results were classified as failures,
in task order; a task that raises an uncaught exception contributes nothing
to the list (it is filtered out together with the `None` results). -/
theorem claim_C4_amended (action : String) (cmd : Cmd) (hcmd : (action, cmd) ∈ cmdTable)
    (w : World) (threads : Nat) (args : Args) (s e : Nat)
    (hshape : argsShape action args = true) (hlen : e - s ≤ (gen0Of args).length)
    (hwf : ∀ n ∈ gen0Of args, goodName n = true) :
    (runTasks w cmd (e - s) args).1.length = e - s ∧
    ∃ L : List (String × Except PyErr (Option String)),
      L.map Prod.fst = (gen0Of args).take (e - s) ∧
      (∀ p ∈ L, OutcomeOf p.1 p.2) ∧
      (run_in_threads w threads cmd args s e).1 =
        (L.filter fun p => failResultFor p.1 p.2).map Prod.fst := by
  refine ⟨runTasks_length w cmd _ args, ?_⟩
  obtain ⟨L, hL2, hL3, hL1, -, -⟩ :=
    run_in_threads_spec action cmd hcmd w threads args s e hshape hlen
  refine ⟨L, hL2, hL3, ?_⟩
  rw [hL1, processOutcomes_spec L ?wf hL3]
  case wf =>
    intro p hp
    apply hwf
    have hmem : p.1 ∈ L.map Prod.fst := List.mem_map_of_mem _ hp
    rw [hL2] at hmem
    exact List.take_subset _ _ hmem

/-- C4 amended, witness: two good names, one failing task (`u1`). -/
theorem claim_C4_amended_witness :
    ((2 : Nat) - 0 ≤ (gen0Of [PyArg.gen ["u0", "u1"]]).length) ∧
    ((runTasks wFailU1U3 make_users (2 - 0) [PyArg.gen ["u0", "u1"]]).1.length = 2 - 0 ∧
      ∃ L : List (String × Except PyErr (Option String)),
        L.map Prod.fst = (gen0Of [PyArg.gen ["u0", "u1"]]).take (2 - 0) ∧
        (∀ p ∈ L, OutcomeOf p.1 p.2) ∧
        (run_in_threads wFailU1U3 1 make_users [PyArg.gen ["u0", "u1"]] 0 2).1 =
          (L.filter fun p => failResultFor p.1 p.2).map Prod.fst) :=
  ⟨by decide, claim_C4_amended "usermk" make_users (by simp [cmdTable]) wFailU1U3 1
    [PyArg.gen ["u0", "u1"]] 0 2 (by decide) (by decide) (by decide)⟩

/-! ## Helper lemmas: the retry pass -/

theorem runChunks_cons (w wr : World) (threads : Nat) (cmd : Cmd) (extra : Option String)
    (s e : Nat) (rest : List (Nat × Nat)) (args : Args) (acc : List String) :
    runChunks w wr threads cmd extra ((s, e) :: rest) args acc =
      runChunks w wr threads cmd extra rest (run_in_threads w threads cmd args s e).2
        (acc ++ (if (run_in_threads w threads cmd args s e).1 = [] then []
          else (run_in_threads wr 2 cmd
            (mkRerunArgs (run_in_threads w threads cmd args s e).1 extra) 0
            (run_in_threads w threads cmd args s e).1.length).1)) := rfl

theorem make_hosts_retry_tasks (wr : World) (d : String) :
    ∀ (k : Nat) (l : List String), k ≤ l.length →
      (runTasks wr make_hosts k [PyArg.gen l, PyArg.str d]).1 =
        List.replicate k (Except.error PyErr.indexError) ∧
      (runTasks wr make_hosts k [PyArg.gen l, PyArg.str d]).2 =
        [PyArg.gen (l.drop k), PyArg.str d] := by
  intro k
  induction k with
  | zero => intro l _; exact ⟨rfl, rfl⟩
  | succ j ih =>
    intro l hlen
    rcases l with _ | ⟨x, xs⟩
    · simp at hlen
    obtain ⟨h1, h2⟩ := ih xs (by simp at hlen; omega)
    have hstep : make_hosts wr [PyArg.gen (x :: xs), PyArg.str d] =
        (Except.error PyErr.indexError, [PyArg.gen xs, PyArg.str d]) := rfl
    simp only [runTasks, hstep]
    constructor
    · rw [h1]
      rfl
    · rw [h2]
      rfl

theorem hostmk_retry_empty (wr : World) (domain : String) (F : List String) :
    (run_in_threads wr 2 make_hosts [PyArg.gen F, PyArg.str domain] 0 F.length).1 = [] := by
  show processOutcomes
    (runTasks wr make_hosts (F.length - 0) [PyArg.gen F, PyArg.str domain]).1 = []
  have h1 := (make_hosts_retry_tasks wr domain F.length F (Nat.le_refl _)).1
  rw [show F.length - 0 = F.length from rfl, h1]
  apply processOutcomes_allError
  intro o ho
  rw [List.mem_replicate] at ho
  exact ⟨PyErr.indexError, ho.2⟩

theorem retry_subset_of_shape (action : String) (cmd : Cmd) (hcmd : (action, cmd) ∈ cmdTable)
    (wr : World) (rargs : Args) (failed : List String)
    (hshape : argsShape action rargs = true) (hgen : gen0Of rargs = failed)
    (hwf : ∀ n ∈ failed, goodName n = true) :
    ∀ x ∈ (run_in_threads wr 2 cmd rargs 0 failed.length).1, x ∈ failed := by
  obtain ⟨L, hL2, hL3, hL1, -, -⟩ := run_in_threads_spec action cmd hcmd wr 2 rargs 0
    failed.length hshape (by rw [hgen]; omega)
  have htake : (gen0Of rargs).take (failed.length - 0) = failed := by
    rw [hgen, show failed.length - 0 = failed.length from rfl, List.take_length]
  have hfst : L.map Prod.fst = failed := by rw [hL2, htake]
  have hgood : ∀ p ∈ L, goodName p.1 = true := by
    intro p hp
    apply hwf
    rw [← hfst]
    exact List.mem_map_of_mem _ hp
  intro x hx
  rw [hL1, processOutcomes_spec L hgood hL3] at hx
  obtain ⟨q, hqf, rfl⟩ := List.mem_map.mp hx
  have hqL : q ∈ L := (List.mem_filter.mp hqf).1
  rw [← hfst]
  exact List.mem_map_of_mem _ hqL

theorem retry_subset (action : String) (cmd : Cmd) (hcmd : (action, cmd) ∈ cmdTable)
    (wr : World) (ex : String) (failed : List String)
    (hwf : ∀ n ∈ failed, goodName n = true) :
    ∀ x ∈ (run_in_threads wr 2 cmd (mkRerunArgs failed (extraOf action ex)) 0
      failed.length).1, x ∈ failed := by
  rcases cmdTable_cases action cmd hcmd with
    ⟨rfl, rfl⟩ | ⟨rfl, rfl⟩ | ⟨rfl, rfl⟩ | ⟨rfl, rfl⟩ | ⟨rfl, rfl⟩
  · exact retry_subset_of_shape "usermk" make_users hcmd wr
      (mkRerunArgs failed (extraOf "usermk" ex)) failed rfl rfl hwf
  · have hre : mkRerunArgs failed (extraOf "hostmk" ex) =
        [PyArg.gen failed, PyArg.str ex] := rfl
    rw [hre, hostmk_retry_empty wr ex failed]
    intro x hx
    cases hx
  · exact retry_subset_of_shape "groupmk" make_groups hcmd wr
      (mkRerunArgs failed (extraOf "groupmk" ex)) failed rfl rfl hwf
  · exact retry_subset_of_shape "useract" activate_users hcmd wr
      (mkRerunArgs failed (extraOf "useract" ex)) failed rfl rfl hwf
  · exact retry_subset_of_shape "userauth" auth_users hcmd wr
      (mkRerunArgs failed (extraOf "userauth" ex)) failed rfl rfl hwf

/-! ## Claim C2: the retry pass -/

/-- C2 fails as stated: with base name `x:` the Record Names `x:1` and `x:2`
both fail, but the extraction in `run_in_threads` truncates them at the second
colon, producing the failure list `[x, x]`; the substituted retry generator
then yields the single name `x` twice, so one name is retried twice (and the
Record Names `x:1`, `x:2` are not what is retried at all). -/
theorem claim_C2_counterexample :
    (run_in_threads wBoom 1 make_users [PyArg.gen ["x:1", "x:2"]] 0 2).1 = ["x", "x"] ∧
    gen0Of (mkRerunArgs ["x", "x"] none) = ["x", "x"] ∧
    ¬ (["x", "x"] : List String).Nodup := by
  exact ⟨by decide, by decide, by decide⟩

/-- C2 amended: provided the entries of the first pass's failure list `failed`
contain no colon, do not begin with `failed` and carry no surrounding
whitespace, and `failed` has no duplicates: when `failed` is non-empty the
driver re-invokes the Batch Executor exactly once for that chunk, at worker
count 2, over the index range `[0, len(failed))`, with the generator replaced
by one yielding exactly the entries of `failed`, each once (so no name is
retried more than once); the retry pass's failure list is appended to the
run-wide permanently-failed collection, and every entry of it is one of the
names in `failed`.  Without the proviso the entries of `failed` are the
stripped text between the first and second colon of each failure result,
which need not be Record Names and may repeat. -/
theorem claim_C2_amended (action : String) (cmd : Cmd) (hcmd : (action, cmd) ∈ cmdTable)
    (w wr : World) (threads : Nat) (ex : String) (args args' : Args)
    (s e : Nat) (rest : List (Nat × Nat)) (acc : List String) (failed : List String)
    (hrun : run_in_threads w threads cmd args s e = (failed, args'))
    (hne : failed ≠ [])
    (hwf : ∀ n ∈ failed, goodName n = true)
    (hnd : failed.Nodup) :
    (runChunks w wr threads cmd (extraOf action ex) ((s, e) :: rest) args acc =
      runChunks w wr threads cmd (extraOf action ex) rest args'
        (acc ++ (run_in_threads wr 2 cmd (mkRerunArgs failed (extraOf action ex)) 0
          failed.length).1)) ∧
    gen0Of (mkRerunArgs failed (extraOf action ex)) = failed ∧
    (gen0Of (mkRerunArgs failed (extraOf action ex))).Nodup ∧
    (∀ x ∈ (run_in_threads wr 2 cmd (mkRerunArgs failed (extraOf action ex)) 0
      failed.length).1, x ∈ failed) := by
  have hgen : gen0Of (mkRerunArgs failed (extraOf action ex)) = failed := by
    unfold extraOf
    by_cases hin : extraModes.contains action = true
    · rw [if_pos hin]
      rfl
    · rw [if_neg hin]
      rfl
  refine ⟨?_, hgen, by rw [hgen]; exact hnd, retry_subset action cmd hcmd wr ex failed hwf⟩
  rw [runChunks_cons, hrun]
  rw [if_neg hne]

/-- C2 amended, witness: a usermk chunk `[0, 4)` in which `u1` and `u3` fail
and fail again on retry. -/
theorem claim_C2_amended_witness :
    (run_in_threads wFailU1U3 3 make_users [PyArg.gen ["u0", "u1", "u2", "u3"]] 0 4 =
      (["u1", "u3"], ([PyArg.gen []] : Args))) ∧
    ((runChunks wFailU1U3 wBoom 3 make_users (extraOf "usermk" "p") [(0, 4)]
        [PyArg.gen ["u0", "u1", "u2", "u3"]] [] =
      runChunks wFailU1U3 wBoom 3 make_users (extraOf "usermk" "p") []
        [PyArg.gen []]
        ([] ++ (run_in_threads wBoom 2 make_users
          (mkRerunArgs ["u1", "u3"] (extraOf "usermk" "p")) 0
          (["u1", "u3"] : List String).length).1)) ∧
      gen0Of (mkRerunArgs ["u1", "u3"] (extraOf "usermk" "p")) = ["u1", "u3"] ∧
      (gen0Of (mkRerunArgs ["u1", "u3"] (extraOf "usermk" "p"))).Nodup ∧
      (∀ x ∈ (run_in_threads wBoom 2 make_users
        (mkRerunArgs ["u1", "u3"] (extraOf "usermk" "p")) 0
        (["u1", "u3"] : List String).length).1, x ∈ (["u1", "u3"] : List String))) :=
  ⟨by decide, claim_C2_amended "usermk" make_users (by simp [cmdTable]) wFailU1U3 wBoom 3 "p"
    [PyArg.gen ["u0", "u1", "u2", "u3"]] [PyArg.gen []] 0 4 [] [] ["u1", "u3"]
    (by decide) (by decide) (by decide) (by decide)⟩

/-! ## Claim C9: the hostmk retry always crashes -/

/-- C9: for hostmk the rerun argument list is just the failed-names generator
and the domain — the IP generator is omitted — so every retried `make_hosts`
task raises an out-of-range access at `args[2]` (after consuming its name);
the retry pass's failure list is therefore always empty, and across any run
the hostmk driver never adds anything to the permanently-failed (failed-twice)
collection. -/
theorem claim_C9 (wr : World) (domain : String) (failed : List String) :
    mkRerunArgs failed (extraOf "hostmk" domain) =
      [PyArg.gen failed, PyArg.str domain] ∧
    (∀ k, k < failed.length →
      (runTasks wr make_hosts failed.length
        [PyArg.gen failed, PyArg.str domain]).1[k]? =
        some (Except.error PyErr.indexError)) ∧
    (run_in_threads wr 2 make_hosts (mkRerunArgs failed (extraOf "hostmk" domain)) 0
      failed.length).1 = [] ∧
    (∀ (w : World) (threads : Nat) (CL : List (Nat × Nat)) (args : Args)
      (acc : List String),
      (runChunks w wr threads make_hosts (extraOf "hostmk" domain) CL args acc).2 = acc) := by
  have hre : mkRerunArgs failed (extraOf "hostmk" domain) =
      [PyArg.gen failed, PyArg.str domain] := rfl
  refine ⟨hre, ?_, ?_, ?_⟩
  · intro k hk
    rw [(make_hosts_retry_tasks wr domain failed.length failed (Nat.le_refl _)).1]
    rw [List.getElem?_replicate]
    rw [if_pos hk]
  · rw [hre]
    exact hostmk_retry_empty wr domain failed
  · intro w threads CL
    induction CL with
    | nil => intro args acc; rfl
    | cons pr rest ih =>
      intro args acc
      obtain ⟨s, e⟩ := pr
      rw [runChunks_cons]
      by_cases hf : (run_in_threads w threads make_hosts args s e).1 = []
      · rw [if_pos hf, List.append_nil]
        exact ih _ _
      · rw [if_neg hf]
        have hre2 : mkRerunArgs (run_in_threads w threads make_hosts args s e).1
            (extraOf "hostmk" domain) =
            [PyArg.gen (run_in_threads w threads make_hosts args s e).1,
             PyArg.str domain] := rfl
        rw [hre2, hostmk_retry_empty wr domain _, List.append_nil]
        exact ih _ _

/-- C9 witness: two failed host records, domain `dom`. -/
theorem claim_C9_witness :
    (0 : Nat) < (["h1", "h2"] : List String).length ∧
    mkRerunArgs ["h1", "h2"] (extraOf "hostmk" "dom") =
      [PyArg.gen ["h1", "h2"], PyArg.str "dom"] ∧
    (runTasks wBoom make_hosts (["h1", "h2"] : List String).length
      [PyArg.gen ["h1", "h2"], PyArg.str "dom"]).1[0]? =
      some (Except.error PyErr.indexError) ∧
    (run_in_threads wBoom 2 make_hosts (mkRerunArgs ["h1", "h2"] (extraOf "hostmk" "dom"))
      0 (["h1", "h2"] : List String).length).1 = [] ∧
    (runChunks wQuiet wBoom 5 make_hosts (extraOf "hostmk" "dom") [(0, 2)]
      [PyArg.gen ["h1", "h2", "h3"], PyArg.str "dom",
       PyArg.gen ["10.10.0.0", "10.10.0.1", "10.10.0.2"]] []).2 = [] :=
  ⟨by decide, (claim_C9 wBoom "dom" ["h1", "h2"]).1,
    (claim_C9 wBoom "dom" ["h1", "h2"]).2.1 0 (by decide),
    (claim_C9 wBoom "dom" ["h1", "h2"]).2.2.1,
    (claim_C9 wBoom "dom" ["h1", "h2"]).2.2.2 wQuiet 5 [(0, 2)] _ []⟩

/-! ## Helper lemmas: generator consumption across the chunk loop -/

theorem range'_drop : ∀ (n s m : Nat),
    (List.range' s m).drop n = List.range' (s + n) (m - n) := by
  intro n
  induction n with
  | zero => intro s m; simp
  | succ k ih =>
    intro s m
    cases m with
    | zero => simp
    | succ m' =>
      rw [List.range'_succ, List.drop_succ_cons, ih (s + 1) m']
      have h1 : s + 1 + k = s + (k + 1) := by omega
      have h2 : m' - k = m' + 1 - (k + 1) := by omega
      rw [h1, h2]

theorem range'_take : ∀ (n s m : Nat),
    (List.range' s m).take n = List.range' s (min n m) := by
  intro n
  induction n with
  | zero => intro s m; simp
  | succ k ih =>
    intro s m
    cases m with
    | zero => simp
    | succ m' =>
      rw [List.range'_succ, List.take_succ_cons, ih (s + 1) m']
      have h1 : min (k + 1) (m' + 1) = (min k m') + 1 := by omega
      rw [h1, List.range'_succ]

theorem chunkList_sizes_sum (start stop csize : Nat) (hc : 0 < csize) :
    ((chunkList start stop csize).map fun p => p.2 - p.1).sum = stop - start := by
  have h := chunkList_flatMap csize hc (stop - start) start stop (Nat.le_refl _)
  have hlen := congrArg List.length h
  rw [List.length_flatMap, List.length_range'] at hlen
  rw [← hlen]
  congr 1
  apply List.map_congr_left
  intro p _
  simp [List.length_range']

theorem namesGen_drop (base : String) (start stop : Nat) (h : start < stop) :
    (namesGen base start stop).drop (stop - start) = [base ++ toString stop] := by
  unfold namesGen
  rw [← List.map_drop, range'_drop]
  have h1 : start + (stop - start) = stop := by omega
  have h2 : stop + 1 - start - (stop - start) = 1 := by omega
  rw [h1, h2]
  rfl

theorem namesGen_take (base : String) (start stop : Nat) (h : start < stop) :
    (namesGen base start stop).take (stop - start) =
      (List.range' start (stop - start)).map fun i => base ++ toString i := by
  unfold namesGen
  rw [← List.map_take, range'_take]
  have h1 : min (stop - start) (stop + 1 - start) = stop - start := by omega
  rw [h1]

theorem runChunks_gen0 (action : String) (cmd : Cmd) (hcmd : (action, cmd) ∈ cmdTable)
    (w wr : World) (threads : Nat) (extra : Option String) :
    ∀ (CL : List (Nat × Nat)) (args : Args) (acc : List String),
      argsShape action args = true →
      (CL.map fun p => p.2 - p.1).sum ≤ (gen0Of args).length →
      gen0Of (runChunks w wr threads cmd extra CL args acc).1 =
        (gen0Of args).drop ((CL.map fun p => p.2 - p.1).sum) := by
  intro CL
  induction CL with
  | nil => intro args acc _ _; rfl
  | cons pr rest ih =>
    intro args acc hshape hlen
    obtain ⟨s, e⟩ := pr
    simp only [List.map_cons, List.sum_cons] at hlen
    obtain ⟨L, hL2, hL3, hL1, hsh2, hg2⟩ := run_in_threads_spec action cmd hcmd w threads
      args s e hshape (by omega)
    have hlen2 : (rest.map fun p => p.2 - p.1).sum ≤
        (gen0Of (run_in_threads w threads cmd args s e).2).length := by
      rw [hg2, List.length_drop]
      omega
    rw [runChunks_cons, ih _ _ hsh2 hlen2, hg2, List.drop_drop]
    simp only [List.map_cons, List.sum_cons]

/-! ## Claim C10: the off-by-one generator consumption -/

/-- C10: for every run with `start < stop` (and a positive chunk size), the
per-chunk first-pass submission counts add up to exactly `stop - start` (the
batch executor submits one task per chunk index, and only these first passes
draw from the shared names generator — retry passes use substituted
generators); consequently exactly the names `<base><start>` through
`<base><stop-1>` are consumed and processed, and after all chunks the
generator still holds exactly its final name `<base><stop>`, which is never
consumed even though the generator produces it. -/
theorem claim_C10 (action : String) (cmd : Cmd) (hcmd : (action, cmd) ∈ cmdTable)
    (w wr : World) (threads : Nat) (base extra : String) (start stop csize : Nat)
    (hlt : start < stop) (hcs : 0 < csize) :
    ((chunkList start stop csize).map fun p => p.2 - p.1).sum = stop - start ∧
    (∀ (args0 : Args) (k : Nat), (runTasks w cmd k args0).1.length = k) ∧
    gen0Of (mkCmdArgs action base start stop extra) = namesGen base start stop ∧
    (namesGen base start stop).take (stop - start) =
      (List.range' start (stop - start)).map (fun i => base ++ toString i) ∧
    gen0Of (runChunks w wr threads cmd (extraOf action extra)
      (chunkList start stop csize) (mkCmdArgs action base start stop extra) []).1 =
      [base ++ toString stop] := by
  have hg0 : gen0Of (mkCmdArgs action base start stop extra) = namesGen base start stop := by
    rcases cmdTable_cases action cmd hcmd with
      ⟨rfl, -⟩ | ⟨rfl, -⟩ | ⟨rfl, -⟩ | ⟨rfl, -⟩ | ⟨rfl, -⟩ <;> rfl
  have hshape : argsShape action (mkCmdArgs action base start stop extra) = true := by
    rcases cmdTable_cases action cmd hcmd with
      ⟨rfl, -⟩ | ⟨rfl, -⟩ | ⟨rfl, -⟩ | ⟨rfl, -⟩ | ⟨rfl, -⟩
    · rfl
    · show ((namesGen base start stop).length == (ipsGen start stop).length) = true
      exact beq_iff_eq.mpr (by simp [namesGen, ipsGen])
    · rfl
    · rfl
    · rfl
  have hsum := chunkList_sizes_sum start stop csize hcs
  refine ⟨hsum, fun args0 k => runTasks_length w cmd k args0, hg0,
    namesGen_take base start stop hlt, ?_⟩
  have hlen : ((chunkList start stop csize).map fun p => p.2 - p.1).sum ≤
      (gen0Of (mkCmdArgs action base start stop extra)).length := by
    rw [hsum, hg0]
    simp only [namesGen, List.length_map, List.length_range']
    omega
  rw [runChunks_gen0 action cmd hcmd w wr threads (extraOf action extra)
    (chunkList start stop csize) (mkCmdArgs action base start stop extra) [] hshape hlen,
    hsum, hg0]
  exact namesGen_drop base start stop hlt

/-- C10 witness: `usermk u 0 2` with chunk size 1 — the generator yields
`u0, u1, u2`, the two chunks consume `u0` and `u1`, and `u2` is left
unconsumed. -/
theorem claim_C10_witness :
    (0 : Nat) < 2 ∧ (0 : Nat) < 1 ∧
    ((chunkList 0 2 1).map fun p => p.2 - p.1).sum = 2 - 0 ∧
    gen0Of (mkCmdArgs "usermk" "u" 0 2 "") = namesGen "u" 0 2 ∧
    gen0Of (runChunks wQuiet wQuiet 5 make_users (extraOf "usermk" "")
      (chunkList 0 2 1) (mkCmdArgs "usermk" "u" 0 2 "") []).1 =
      ["u" ++ toString 2] :=
  ⟨by decide, by decide,
    (claim_C10 "usermk" make_users (by simp [cmdTable]) wQuiet wQuiet 5 "u" "" 0 2 1
      (by decide) (by decide)).1,
    (claim_C10 "usermk" make_users (by simp [cmdTable]) wQuiet wQuiet 5 "u" "" 0 2 1
      (by decide) (by decide)).2.2.1,
    (claim_C10 "usermk" make_users (by simp [cmdTable]) wQuiet wQuiet 5 "u" "" 0 2 1
      (by decide) (by decide)).2.2.2.2⟩
